import Mathlib

/-!
# go-cache: a key-value cache with per-entry expiration

Shallow embedding of `cache.go`.

* A Go `map[string]T` is an association list with pairwise distinct keys
  (`AList`): `m[k] = v` is `AList.insert`, `delete(m, k)` is `AList.erase`,
  `v, ok := m[k]` is `AList.lookup` and `len(m)` is the number of entries.
* `interface{}` is an arbitrary type `V`; its zero value `nil` is `default`.
* `int64` and `time.Duration` values are integers; the one arithmetic
  operation of the program, `time.Now().Add(lifespan).UnixNano()`, wraps
  around in 64 bits (`toInt64`).
* The clock is not read by the model: every operation that calls `time.Now()`
  takes the reading, in nanoseconds since the Unix epoch, as an argument.
* `Cache.Set`, `Cache.Delete` and the other operations give the state after
  the operation has run to completion. `Set` and `Delete` release `c.mu`
  before they take `w.mu`: their two critical sections are also given apart
  (`Cache.SetStore`, `Cache.SetTrack`, `Cache.DeleteStore`,
  `Cache.DeleteUntrack`), and `Cache.runSections` runs a schedule of critical
  sections of several goroutines.
* The background goroutine of `run` is the function `watchdog.delete`,
  applied to the clock readings taken at the ticks it receives.
* The use of the two mutexes is described apart from the state: each
  operation has the sequence of its lock, unlock and map-access events
  (`Cache.SetEvents`, `watchdog.sweepEvents`, ...), in the order of the source.
-/

namespace GoCache

/-- A Go map with string keys. -/
abbrev GoMap (T : Type) : Type := AList (fun _ : String => T)

/-- The value of an integer expression evaluated in `int64`: two's complement
wrap-around into `[-2^63, 2^63)`. -/
def toInt64 (x : Int) : Int := (x + 2 ^ 63) % 2 ^ 64 - 2 ^ 63

/-- `NoExpiration time.Duration = -1`. -/
def NoExpiration : Int := -1

/-- `DefaultPurgeInterval = time.Minute`, in nanoseconds. -/
def DefaultPurgeInterval : Int := 60 * 1000000000

/-- `type watchdog struct`: the expiration tracker. The back pointer `cache`
is not a field here; the operations that follow it take the cache itself. -/
structure watchdog where
  expirationSet : GoMap Int
  purgeInterval : Int

/-- `type Cache struct`: the store `items` and its watchdog `wd`. -/
structure Cache (V : Type) where
  items : GoMap V
  wd : watchdog

/-- `newWatchdog`: an empty expiration set. -/
def newWatchdog (purgeInterval : Int) : watchdog :=
  { expirationSet := ∅, purgeInterval := purgeInterval }

/-- `watchdog.track`: `w.expirationSet[key] = expiresAt`. -/
def watchdog.track (w : watchdog) (key : String) (expiresAt : Int) : watchdog :=
  { w with expirationSet := w.expirationSet.insert key expiresAt }

/-- `watchdog.untrack`: `delete(w.expirationSet, key)`. -/
def watchdog.untrack (w : watchdog) (key : String) : watchdog :=
  { w with expirationSet := w.expirationSet.erase key }

/-- `New`: empty store, fresh watchdog. (`c.wd.run()` starts the goroutine
that is modelled by `watchdog.delete`.) -/
def New (V : Type) (purgeInterval : Int) : Cache V :=
  { items := ∅, wd := newWatchdog purgeInterval }

/-- `Cache.Get`: `val, ok := c.items[key]`; `val` is `nil` when `ok` is false. -/
def Cache.Get {V : Type} [Inhabited V] (c : Cache V) (key : String) : V × Bool :=
  match c.items.lookup key with
  | some val => (val, true)
  | none => (default, false)

/-- `Cache.Set`: stores the value, and tracks the key when the lifespan is not
`NoExpiration`. `now` is the reading of `time.Now()` in Unix nanoseconds; the
record is `time.Now().Add(lifespan).UnixNano()`, an `int64`. -/
def Cache.Set {V : Type} (c : Cache V) (key : String) (value : V) (lifespan : Int)
    (now : Int) : Cache V :=
  let c1 : Cache V := { c with items := c.items.insert key value }
  if lifespan ≠ NoExpiration then
    { c1 with wd := c1.wd.track key (toInt64 (now + lifespan)) }
  else
    c1

/-- `Cache.Delete`: `delete(c.items, key)`, then `c.wd.untrack(key)`. -/
def Cache.Delete {V : Type} (c : Cache V) (key : String) : Cache V :=
  let c1 : Cache V := { c with items := c.items.erase key }
  { c1 with wd := c1.wd.untrack key }

/-- `Cache.ItemCount`: `len(c.items)`. -/
def Cache.ItemCount {V : Type} (c : Cache V) : Int :=
  (c.items.entries.length : Int)

/-- `Cache.Flush`: `c.items = map[string]interface{}{}`. -/
def Cache.Flush {V : Type} (c : Cache V) : Cache V :=
  { c with items := ∅ }

/-- The first loop of a tick in `watchdog.delete`: ranging over the records,
each one with `now > expiresAt` has its key deleted from the store and
appended to `evictedKeys`. The accumulator is `(w.cache.items, evictedKeys)`. -/
def watchdog.scan {V : Type} (now : Int) (records : List (Sigma fun _ : String => Int))
    (items : GoMap V) (evictedKeys : List String) : GoMap V × List String :=
  records.foldl
    (fun acc r => if now > r.2 then (acc.1.erase r.1, acc.2 ++ [r.1]) else acc)
    (items, evictedKeys)

/-- The second loop of a tick: `delete(w.expirationSet, evictedKeys[i])` for
every index `i`. -/
def watchdog.purge (expirationSet : GoMap Int) (evictedKeys : List String) : GoMap Int :=
  evictedKeys.foldl (fun m key => m.erase key) expirationSet

/-- One sweep: the body of `case <-tickCh` in `watchdog.delete`, with `now`
the value of `time.Now().UnixNano()` read at the tick. -/
def watchdog.sweep {V : Type} (c : Cache V) (now : Int) : Cache V :=
  let r := watchdog.scan now c.wd.expirationSet.entries c.items []
  { items := r.1,
    wd := { c.wd with expirationSet := watchdog.purge c.wd.expirationSet r.2 } }

/-- `watchdog.delete`: the sweep loop, run over the clock readings taken at
the successive ticks received from `tickCh`. -/
def watchdog.delete {V : Type} (c : Cache V) (ticks : List Int) : Cache V :=
  ticks.foldl watchdog.sweep c

/-- Deleting a list of keys from a map, one `delete(m, key)` after the other
(used to describe the result of both loops of a sweep). -/
def eraseKeys {T : Type} (m : GoMap T) (keys : List String) : GoMap T :=
  keys.foldl (fun m key => m.erase key) m

/-- The keys a sweep at `now` evicts, in the order of the scan. -/
def expiredKeys (w : watchdog) (now : Int) : List String :=
  (w.expirationSet.entries.filter (fun r => decide (now > r.2))).map Sigma.fst

/-- The first critical section of `Cache.Set` (lines 37-39): under `c.mu`,
`c.items[key] = value`. -/
def Cache.SetStore {V : Type} (c : Cache V) (key : String) (value : V) : Cache V :=
  { c with items := c.items.insert key value }

/-- The rest of `Cache.Set` (lines 40-42), run after `c.mu` is released: when
the lifespan is not `NoExpiration`, the clock is read (`now`) and `track` is
called, under `w.mu`. -/
def Cache.SetTrack {V : Type} (c : Cache V) (key : String) (lifespan : Int) (now : Int) :
    Cache V :=
  if lifespan ≠ NoExpiration then
    { c with wd := c.wd.track key (toInt64 (now + lifespan)) }
  else
    c

/-- The first critical section of `Cache.Delete` (lines 46-48): under `c.mu`,
`delete(c.items, key)`. -/
def Cache.DeleteStore {V : Type} (c : Cache V) (key : String) : Cache V :=
  { c with items := c.items.erase key }

/-- The rest of `Cache.Delete` (line 49), run after `c.mu` is released:
`c.wd.untrack(key)`, under `w.mu`. -/
def Cache.DeleteUntrack {V : Type} (c : Cache V) (key : String) : Cache V :=
  { c with wd := c.wd.untrack key }

/-- The critical sections that change the state. `Set` and `Delete` are two
sections each, and sections of other goroutines may run between the two; a
sweep is the one section of `w.mu` of a tick (lines 105-117). -/
inductive CriticalSection (V : Type) where
  | SetStore (key : String) (value : V)
  | SetTrack (key : String) (lifespan : Int) (now : Int)
  | DeleteStore (key : String)
  | DeleteUntrack (key : String)
  | sweep (now : Int)
  | Flush

/-- The state after one critical section. -/
def Cache.runSection {V : Type} (c : Cache V) : CriticalSection V → Cache V
  | CriticalSection.SetStore key value => c.SetStore key value
  | CriticalSection.SetTrack key lifespan now => c.SetTrack key lifespan now
  | CriticalSection.DeleteStore key => c.DeleteStore key
  | CriticalSection.DeleteUntrack key => c.DeleteUntrack key
  | CriticalSection.sweep now => watchdog.sweep c now
  | CriticalSection.Flush => c.Flush

/-- The state after a schedule: a sequence of critical sections, in the order
in which the goroutines ran them. -/
def Cache.runSections {V : Type} (c : Cache V) (schedule : List (CriticalSection V)) :
    Cache V :=
  schedule.foldl Cache.runSection c

/-- An operation that changes the state, other than `Flush`: a call of `Set`
(with the clock reading it takes), a call of `Delete`, or one sweep of the
background loop (with the clock reading of its tick). -/
inductive Step (V : Type) where
  | Set (key : String) (value : V) (lifespan : Int) (now : Int)
  | Delete (key : String)
  | sweep (now : Int)

/-- The critical sections of an operation, in program order. -/
def Step.sections {V : Type} : Step V → List (CriticalSection V)
  | Step.Set key value lifespan now =>
    [CriticalSection.SetStore key value, CriticalSection.SetTrack key lifespan now]
  | Step.Delete key => [CriticalSection.DeleteStore key, CriticalSection.DeleteUntrack key]
  | Step.sweep now => [CriticalSection.sweep now]

/-- The state after one operation that runs to completion, no section of
another goroutine running between its critical sections. -/
def Cache.step {V : Type} (c : Cache V) : Step V → Cache V
  | Step.Set key value lifespan now => c.Set key value lifespan now
  | Step.Delete key => c.Delete key
  | Step.sweep now => watchdog.sweep c now

/-- The state after a sequence of operations run one after the other, each to
completion before the next one starts. -/
def Cache.run {V : Type} (c : Cache V) (steps : List (Step V)) : Cache V :=
  steps.foldl Cache.step c

/-- Every key that has an expiration record is present in the store. -/
def TrackedStored {V : Type} (c : Cache V) : Prop :=
  ∀ k ∈ c.wd.expirationSet.keys, k ∈ c.items.keys

instance instDecidableTrackedStored {V : Type} (c : Cache V) : Decidable (TrackedStored c) :=
  inferInstanceAs (Decidable (∀ k ∈ c.wd.expirationSet.keys, k ∈ c.items.keys))

/-! ## Locks

The order in which each operation calls `Lock`, `Unlock`, `RLock`, `RUnlock`
and touches the two maps, statement by statement. -/

/-- The two mutexes of the program: `Cache.mu` and `watchdog.mu`. -/
inductive Mutex where
  | cacheMu
  | wdMu
  deriving DecidableEq

/-- What a statement does with a mutex, or with the map the mutex guards
(`access cacheMu` reads or writes `c.items`, `access wdMu` reads or writes
`w.expirationSet`). -/
inductive Event where
  | Lock (m : Mutex)
  | Unlock (m : Mutex)
  | RLock (m : Mutex)
  | RUnlock (m : Mutex)
  | access (m : Mutex)
  deriving DecidableEq

/-- `Cache.Get`: `c.mu.RLock()`, `c.items[key]`, `c.mu.RUnlock()`. -/
def Cache.GetEvents : List Event :=
  [Event.RLock Mutex.cacheMu, Event.access Mutex.cacheMu, Event.RUnlock Mutex.cacheMu]

/-- `watchdog.track`: `w.mu.Lock()`, `w.expirationSet[key] = expiresAt`,
`w.mu.Unlock()`. -/
def watchdog.trackEvents : List Event :=
  [Event.Lock Mutex.wdMu, Event.access Mutex.wdMu, Event.Unlock Mutex.wdMu]

/-- `watchdog.untrack`: `w.mu.Lock()`, `delete(w.expirationSet, key)`,
`w.mu.Unlock()`. -/
def watchdog.untrackEvents : List Event :=
  [Event.Lock Mutex.wdMu, Event.access Mutex.wdMu, Event.Unlock Mutex.wdMu]

/-- `Cache.Set`: `c.mu.Lock()`, `c.items[key] = value`, `c.mu.Unlock()`, then
the call of `track` when the lifespan is not `NoExpiration`. -/
def Cache.SetEvents (lifespan : Int) : List Event :=
  [Event.Lock Mutex.cacheMu, Event.access Mutex.cacheMu, Event.Unlock Mutex.cacheMu] ++
    (if lifespan ≠ NoExpiration then watchdog.trackEvents else [])

/-- `Cache.Delete`: `c.mu.Lock()`, `delete(c.items, key)`, `c.mu.Unlock()`,
then the call of `untrack`. -/
def Cache.DeleteEvents : List Event :=
  [Event.Lock Mutex.cacheMu, Event.access Mutex.cacheMu, Event.Unlock Mutex.cacheMu] ++
    watchdog.untrackEvents

/-- `Cache.ItemCount`: `c.mu.RLock()`, `len(c.items)`, `c.mu.RUnlock()`. -/
def Cache.ItemCountEvents : List Event :=
  [Event.RLock Mutex.cacheMu, Event.access Mutex.cacheMu, Event.RUnlock Mutex.cacheMu]

/-- `Cache.Flush`: `c.mu.Lock()`, `c.items = ...`, `c.mu.Unlock()`. -/
def Cache.FlushEvents : List Event :=
  [Event.Lock Mutex.cacheMu, Event.access Mutex.cacheMu, Event.Unlock Mutex.cacheMu]

/-- One iteration of the first loop of a tick: the record is read from
`w.expirationSet`; when `now > expiresAt`, `w.cache.mu.Lock()`,
`delete(w.cache.items, key)`, `w.cache.mu.Unlock()`. -/
def watchdog.scanEvents (now : Int) (r : Sigma fun _ : String => Int) : List Event :=
  Event.access Mutex.wdMu ::
    (if now > r.2 then
      [Event.Lock Mutex.cacheMu, Event.access Mutex.cacheMu, Event.Unlock Mutex.cacheMu]
    else [])

/-- One sweep, in the order of the source: `len(w.expirationSet)` in the call
of `make`, then `w.mu.Lock()`, the first loop over the records, the second
loop with one `delete(w.expirationSet, ...)` for each evicted key, and
`w.mu.Unlock()`. -/
def watchdog.sweepEvents (w : watchdog) (now : Int) : List Event :=
  Event.access Mutex.wdMu :: Event.Lock Mutex.wdMu ::
    (w.expirationSet.entries.flatMap (watchdog.scanEvents now) ++
      ((expiredKeys w now).flatMap (fun _ => [Event.access Mutex.wdMu]) ++
        [Event.Unlock Mutex.wdMu]))

/-- The operations of the program, with the arguments their use of the locks
depends on. -/
inductive Op where
  | Get
  | Set (lifespan : Int)
  | Delete
  | ItemCount
  | Flush
  | track
  | untrack
  | sweep (now : Int)

/-- The events of an operation run on a cache whose watchdog is `w`. -/
def Op.events (w : watchdog) : Op → List Event
  | Op.Get => Cache.GetEvents
  | Op.Set lifespan => Cache.SetEvents lifespan
  | Op.Delete => Cache.DeleteEvents
  | Op.ItemCount => Cache.ItemCountEvents
  | Op.Flush => Cache.FlushEvents
  | Op.track => watchdog.trackEvents
  | Op.untrack => watchdog.untrackEvents
  | Op.sweep now => watchdog.sweepEvents w now

/-- The event is a call on a mutex (`Lock`, `Unlock`, `RLock`, `RUnlock`), not
an access to a map. -/
def Event.isLockCall : Event → Bool
  | Event.access _ => false
  | _ => true

/-- The mutexes a goroutine holds after an event, given those it held before. -/
def Event.heldAfter (held : List Mutex) : Event → List Mutex
  | Event.Lock m => m :: held
  | Event.RLock m => m :: held
  | Event.Unlock m => held.erase m
  | Event.RUnlock m => held.erase m
  | Event.access _ => held

/-- The mutexes held after a sequence of events. -/
def heldAfterAll (held : List Mutex) (events : List Event) : List Mutex :=
  events.foldl Event.heldAfter held

/-- Every event of the sequence satisfies `P`, given the mutexes held just
before it. -/
def checkEvents (P : List Mutex → Event → Bool) : List Mutex → List Event → Bool
  | _, [] => true
  | held, e :: es => P held e && checkEvents P (e.heldAfter held) es

/-- An acquisition is allowed when no mutex is held, or when it takes
`Cache.mu` while exactly `watchdog.mu` is held. -/
def nestingAllowed (held : List Mutex) : Event → Bool
  | Event.Lock m => decide (held = []) || (decide (held = [Mutex.wdMu]) && decide (m = Mutex.cacheMu))
  | Event.RLock m => decide (held = []) || (decide (held = [Mutex.wdMu]) && decide (m = Mutex.cacheMu))
  | _ => true

/-- The event does not acquire `watchdog.mu` while `Cache.mu` is held. -/
def notTrackerUnderStore (held : List Mutex) : Event → Bool
  | Event.Lock m => !(decide (m = Mutex.wdMu) && decide (Mutex.cacheMu ∈ held))
  | Event.RLock m => !(decide (m = Mutex.wdMu) && decide (Mutex.cacheMu ∈ held))
  | _ => true

/-- An acquisition happens with no mutex held. -/
def notNested (held : List Mutex) : Event → Bool
  | Event.Lock _ => decide (held = [])
  | Event.RLock _ => decide (held = [])
  | _ => true

/-- An access to `w.expirationSet` happens with `watchdog.mu` held. -/
def trackerAccessLocked (held : List Mutex) : Event → Bool
  | Event.access Mutex.wdMu => decide (Mutex.wdMu ∈ held)
  | _ => true

/-! ## Lemmas on the two loops of a sweep -/

theorem scan_append_snd {V : Type} (now : Int) (records : List (Sigma fun _ : String => Int))
    (items : GoMap V) (evictedKeys : List String) :
    (watchdog.scan now records items evictedKeys).2 =
      evictedKeys ++ (records.filter (fun r => decide (now > r.2))).map Sigma.fst := by
  induction records generalizing items evictedKeys with
  | nil => simp [watchdog.scan]
  | cons r rs ih =>
    have step : watchdog.scan now (r :: rs) items evictedKeys =
        watchdog.scan now rs
          (if now > r.2 then (items.erase r.1, evictedKeys ++ [r.1]) else (items, evictedKeys)).1
          (if now > r.2 then (items.erase r.1, evictedKeys ++ [r.1]) else (items, evictedKeys)).2 := by
      simp [watchdog.scan]
    rw [step, ih]
    by_cases h : now > r.2 <;> simp [h, List.filter_cons]

theorem scan_fst {V : Type} (now : Int) (records : List (Sigma fun _ : String => Int))
    (items : GoMap V) (evictedKeys : List String) :
    (watchdog.scan now records items evictedKeys).1 =
      eraseKeys items ((records.filter (fun r => decide (now > r.2))).map Sigma.fst) := by
  induction records generalizing items evictedKeys with
  | nil => simp [watchdog.scan, eraseKeys]
  | cons r rs ih =>
    have step : watchdog.scan now (r :: rs) items evictedKeys =
        watchdog.scan now rs
          (if now > r.2 then (items.erase r.1, evictedKeys ++ [r.1]) else (items, evictedKeys)).1
          (if now > r.2 then (items.erase r.1, evictedKeys ++ [r.1]) else (items, evictedKeys)).2 := by
      simp [watchdog.scan]
    rw [step, ih]
    by_cases h : now > r.2 <;> simp [h, List.filter_cons, eraseKeys]

/-- Looking a key up after deleting a list of keys one by one. -/
theorem lookup_eraseKeys {T : Type} (keys : List String) (m : GoMap T) (k : String) :
    (eraseKeys m keys).lookup k = if k ∈ keys then none else m.lookup k := by
  induction keys generalizing m with
  | nil => simp [eraseKeys]
  | cons a as ih =>
    have step : eraseKeys m (a :: as) = eraseKeys (m.erase a) as := rfl
    rw [step, ih]
    by_cases hk : k = a
    · subst hk
      simp [AList.lookup_erase]
    · by_cases hmem : k ∈ as
      · simp [hmem]
      · simp [hmem, hk, AList.lookup_erase_ne hk]

theorem mem_expiredKeys (w : watchdog) (now : Int) (k : String) :
    k ∈ expiredKeys w now ↔ ∃ e, w.expirationSet.lookup k = some e ∧ e < now := by
  unfold expiredKeys
  constructor
  · intro h
    obtain ⟨r, hr, hk⟩ := List.mem_map.1 h
    obtain ⟨hmem, hlt⟩ := List.mem_filter.1 hr
    obtain ⟨a, e⟩ := r
    simp only at hk
    subst hk
    refine ⟨e, ?_, by simpa using hlt⟩
    exact AList.mem_lookup_iff.2 hmem
  · rintro ⟨e, he, hlt⟩
    refine List.mem_map.2 ⟨⟨k, e⟩, List.mem_filter.2 ⟨AList.mem_lookup_iff.1 he, ?_⟩, rfl⟩
    simpa using hlt

theorem sweep_items {V : Type} (c : Cache V) (now : Int) :
    (watchdog.sweep c now).items = eraseKeys c.items (expiredKeys c.wd now) := by
  simp [watchdog.sweep, scan_fst, expiredKeys]

theorem sweep_expirationSet {V : Type} (c : Cache V) (now : Int) :
    (watchdog.sweep c now).wd.expirationSet =
      eraseKeys c.wd.expirationSet (expiredKeys c.wd now) := by
  simp [watchdog.sweep, scan_append_snd, expiredKeys, watchdog.purge, eraseKeys]

/-- The store after one sweep, key by key. -/
theorem sweep_items_lookup {V : Type} (c : Cache V) (now : Int) (k : String) :
    (watchdog.sweep c now).items.lookup k =
      if k ∈ expiredKeys c.wd now then none else c.items.lookup k := by
  rw [sweep_items]
  exact lookup_eraseKeys _ _ _

/-- The tracker after one sweep, key by key. -/
theorem sweep_expirationSet_lookup {V : Type} (c : Cache V) (now : Int) (k : String) :
    (watchdog.sweep c now).wd.expirationSet.lookup k =
      if k ∈ expiredKeys c.wd now then none else c.wd.expirationSet.lookup k := by
  rw [sweep_expirationSet]
  exact lookup_eraseKeys _ _ _

theorem Get_of_lookup_some {V : Type} [Inhabited V] (c : Cache V) (k : String) (v : V)
    (h : c.items.lookup k = some v) : c.Get k = (v, true) := by
  simp [Cache.Get, h]

theorem Get_of_lookup_none {V : Type} [Inhabited V] (c : Cache V) (k : String)
    (h : c.items.lookup k = none) : c.Get k = (default, false) := by
  simp [Cache.Get, h]

theorem Get_found_iff {V : Type} [Inhabited V] (c : Cache V) (k : String) :
    (c.Get k).2 = true ↔ k ∈ c.items.keys := by
  unfold Cache.Get
  cases h : c.items.lookup k with
  | none =>
    have hk : k ∉ c.items := AList.lookup_eq_none.1 h
    simpa using fun hmem => hk (AList.mem_keys.2 hmem)
  | some val =>
    have hk : k ∈ c.items := AList.lookup_isSome.1 (by simp [h])
    simpa using AList.mem_keys.1 hk

theorem Get_eq_iff {V : Type} [Inhabited V] (c : Cache V) (k : String) (v : V) :
    c.Get k = (v, true) ↔ c.items.lookup k = some v := by
  unfold Cache.Get
  cases h : c.items.lookup k <;> simp

theorem Set_items {V : Type} (c : Cache V) (k : String) (v : V) (lifespan now : Int) :
    (c.Set k v lifespan now).items = c.items.insert k v := by
  unfold Cache.Set
  by_cases h : lifespan ≠ NoExpiration <;> simp [h]

/-- Both maps after one sweep, key by key, in terms of the record the key had. -/
theorem sweep_lookup {V : Type} (c : Cache V) (now : Int) (k : String) :
    (watchdog.sweep c now).wd.expirationSet.lookup k =
        (match c.wd.expirationSet.lookup k with
          | some expiresAt => if expiresAt < now then none else some expiresAt
          | none => none) ∧
      (watchdog.sweep c now).items.lookup k =
        (match c.wd.expirationSet.lookup k with
          | some expiresAt => if expiresAt < now then none else c.items.lookup k
          | none => c.items.lookup k) := by
  have hmem := mem_expiredKeys c.wd now k
  rw [sweep_expirationSet_lookup, sweep_items_lookup]
  cases h : c.wd.expirationSet.lookup k with
  | none =>
    have hk : k ∉ expiredKeys c.wd now := by
      rw [hmem, h]
      simp
    simp [hk, h]
  | some e =>
    by_cases hlt : e < now
    · have hk : k ∈ expiredKeys c.wd now := by
        rw [hmem, h]
        exact ⟨e, rfl, hlt⟩
      simp [hk, hlt]
    · have hk : k ∉ expiredKeys c.wd now := by
        rw [hmem, h]
        rintro ⟨e1, he1, hlt1⟩
        cases he1
        exact hlt hlt1
      simp [hk, hlt, h]

/-- A sweep never adds a key to the store. -/
theorem sweep_absent {V : Type} (c : Cache V) (now : Int) (k : String)
    (h : c.items.lookup k = none) : (watchdog.sweep c now).items.lookup k = none := by
  rw [sweep_items_lookup, h]
  simp

/-- Sweeps never add a key to the store. -/
theorem delete_absent {V : Type} (c : Cache V) (ticks : List Int) (k : String)
    (h : c.items.lookup k = none) : (watchdog.delete c ticks).items.lookup k = none := by
  induction ticks generalizing c with
  | nil => exact h
  | cons n ns ih => exact ih (watchdog.sweep c n) (sweep_absent c n k h)

/-- A key without a record is left alone by any number of sweeps. -/
theorem delete_untracked {V : Type} (c : Cache V) (ticks : List Int) (k : String)
    (hrec : c.wd.expirationSet.lookup k = none) :
    (watchdog.delete c ticks).items.lookup k = c.items.lookup k ∧
      (watchdog.delete c ticks).wd.expirationSet.lookup k = none := by
  induction ticks generalizing c with
  | nil => exact ⟨rfl, hrec⟩
  | cons n ns ih =>
    have hs := sweep_lookup c n k
    rw [hrec] at hs
    have h := ih (watchdog.sweep c n) hs.1
    exact ⟨h.1.trans hs.2, h.2⟩

/-- A stored key whose record has not expired at any of the sweeps keeps its
value and its record. -/
theorem delete_early {V : Type} (c : Cache V) (ticks : List Int) (k : String) (v : V)
    (e : Int) (hv : c.items.lookup k = some v) (hrec : c.wd.expirationSet.lookup k = some e)
    (hticks : ∀ n ∈ ticks, n ≤ e) :
    (watchdog.delete c ticks).items.lookup k = some v ∧
      (watchdog.delete c ticks).wd.expirationSet.lookup k = some e := by
  induction ticks generalizing c with
  | nil => exact ⟨hv, hrec⟩
  | cons n ns ih =>
    have hn : ¬ e < n := not_lt.2 (hticks n (List.mem_cons_self n ns))
    have hs := sweep_lookup c n k
    rw [hrec] at hs
    simp only [hn, if_false] at hs
    exact ih (watchdog.sweep c n) (hs.2.trans hv) hs.1
      (fun m hm => hticks m (List.mem_cons_of_mem n hm))

/-- A key whose record has expired at one of the sweeps is gone from the store. -/
theorem delete_late {V : Type} (c : Cache V) (ticks : List Int) (k : String)
    (e : Int) (hrec : c.wd.expirationSet.lookup k = some e)
    (hticks : ∃ n ∈ ticks, e < n) :
    (watchdog.delete c ticks).items.lookup k = none := by
  induction ticks generalizing c with
  | nil =>
    obtain ⟨n, hn, _⟩ := hticks
    cases hn
  | cons n ns ih =>
    have hs := sweep_lookup c n k
    rw [hrec] at hs
    by_cases hn : e < n
    · simp only [hn, if_true] at hs
      exact delete_absent (watchdog.sweep c n) ns k hs.2
    · simp only [hn, if_false] at hs
      obtain ⟨m, hm, hlt⟩ := hticks
      rcases List.mem_cons.1 hm with rfl | hm1
      · exact absurd hlt hn
      · exact ih (watchdog.sweep c n) hs.1 ⟨m, hm1, hlt⟩

theorem toInt64_of_range (x : Int) (hlo : -2 ^ 63 ≤ x) (hhi : x < 2 ^ 63) : toInt64 x = x := by
  unfold toInt64
  have h : (x + 2 ^ 63) % 2 ^ 64 = x + 2 ^ 63 := Int.emod_eq_of_lt (by omega) (by omega)
  omega

theorem Set_expirationSet {V : Type} (c : Cache V) (k : String) (v : V) (lifespan now : Int)
    (h : lifespan ≠ NoExpiration) :
    (c.Set k v lifespan now).wd.expirationSet =
      c.wd.expirationSet.insert k (toInt64 (now + lifespan)) := by
  unfold Cache.Set
  simp [h, watchdog.track]

/-- After `m[k] = x` the map has exactly one entry with key `k`, namely `(k, x)`. -/
theorem insert_filter_key {T : Type} (m : GoMap T) (k : String) (x : T) :
    (m.insert k x).entries.filter (fun r => decide (r.1 = k)) = [⟨k, x⟩] := by
  rw [AList.insert_entries, List.filter_cons_of_pos (by simp)]
  have htail : (List.kerase k m.entries).filter (fun r => decide (r.1 = k)) = [] := by
    rw [List.filter_eq_nil_iff]
    intro r hr hk
    have hne : k ≠ r.1 := List.not_eq_key.1 (List.not_mem_keys_kerase k m.nodupKeys) r hr
    have hk1 : r.1 = k := by simpa using hk
    exact hne hk1.symm
  rw [htail]

/-! ## Lemmas on the critical sections of `Set` and `Delete` -/

/-- `Set` run to completion is its two critical sections, one after the other. -/
theorem Set_eq_sections {V : Type} (c : Cache V) (k : String) (v : V) (lifespan now : Int) :
    c.Set k v lifespan now = (c.SetStore k v).SetTrack k lifespan now := by
  unfold Cache.Set Cache.SetTrack Cache.SetStore
  by_cases h : lifespan ≠ NoExpiration <;> simp [h]

/-- `Delete` run to completion is its two critical sections, one after the other. -/
theorem Delete_eq_sections {V : Type} (c : Cache V) (k : String) :
    c.Delete k = (c.DeleteStore k).DeleteUntrack k := rfl

theorem runSections_sections {V : Type} (c : Cache V) (st : Step V) :
    c.runSections st.sections = c.step st := by
  cases st with
  | Set key value lifespan now => exact (Set_eq_sections c key value lifespan now).symm
  | Delete key => rfl
  | sweep now => rfl

theorem runSections_append {V : Type} (c : Cache V) (xs ys : List (CriticalSection V)) :
    c.runSections (xs ++ ys) = (c.runSections xs).runSections ys := by
  simp [Cache.runSections, List.foldl_append]

/-- A schedule in which every operation runs to completion before the next
one starts gives the state of `Cache.run`. -/
theorem runSections_serial {V : Type} (c : Cache V) (steps : List (Step V)) :
    c.runSections (steps.flatMap Step.sections) = c.run steps := by
  induction steps generalizing c with
  | nil => rfl
  | cons st rest ih =>
    rw [List.flatMap_cons, runSections_append, runSections_sections, ih]
    rfl

theorem SetTrack_expirationSet {V : Type} (c : Cache V) (k : String) (lifespan now : Int)
    (h : lifespan ≠ NoExpiration) :
    (c.SetTrack k lifespan now).wd.expirationSet =
      c.wd.expirationSet.insert k (toInt64 (now + lifespan)) := by
  unfold Cache.SetTrack
  simp [h, watchdog.track]

theorem SetTrack_items {V : Type} (c : Cache V) (k : String) (lifespan now : Int) :
    (c.SetTrack k lifespan now).items = c.items := by
  unfold Cache.SetTrack
  by_cases h : lifespan ≠ NoExpiration <;> simp [h]

/-- Whether a sweep evicts a key depends only on the record of the key. -/
theorem mem_expiredKeys_congr (w1 w2 : watchdog) (now : Int) (k : String)
    (h : w1.expirationSet.lookup k = w2.expirationSet.lookup k) :
    k ∈ expiredKeys w1 now ↔ k ∈ expiredKeys w2 now := by
  rw [mem_expiredKeys, mem_expiredKeys, h]

/-- A stored key that none of the sweeps evicts keeps its value and its
record, if it has one. -/
theorem delete_survives {V : Type} (c : Cache V) (ticks : List Int) (k : String) (v : V)
    (hv : c.items.lookup k = some v) (hticks : ∀ n ∈ ticks, k ∉ expiredKeys c.wd n) :
    (watchdog.delete c ticks).items.lookup k = some v ∧
      (watchdog.delete c ticks).wd.expirationSet.lookup k = c.wd.expirationSet.lookup k := by
  induction ticks generalizing c with
  | nil => exact ⟨hv, rfl⟩
  | cons n ns ih =>
    have hn : k ∉ expiredKeys c.wd n := hticks n (List.mem_cons_self n ns)
    have hitems : (watchdog.sweep c n).items.lookup k = some v := by
      rw [sweep_items_lookup, if_neg hn, hv]
    have hrec : (watchdog.sweep c n).wd.expirationSet.lookup k
        = c.wd.expirationSet.lookup k := by
      rw [sweep_expirationSet_lookup, if_neg hn]
    have h := ih (watchdog.sweep c n) hitems (fun m hm hmem =>
      hticks m (List.mem_cons_of_mem n hm)
        ((mem_expiredKeys_congr (watchdog.sweep c n).wd c.wd m k hrec).1 hmem))
    exact ⟨h.1, h.2.trans hrec⟩

/-! ## The claims -/

/-- C1: for every cache state, key, value and lifespan (NoExpiration included),
`Set(k, v, lifespan)` followed immediately by `Get(k)` returns `(v, true)`. -/
theorem Set_then_Get {V : Type} [Inhabited V] (c : Cache V) (k : String) (v : V)
    (lifespan now : Int) : (c.Set k v lifespan now).Get k = (v, true) := by
  apply Get_of_lookup_some
  rw [Set_items]
  exact AList.lookup_insert _

/-- C4: for every cache state and every key (also one never set), `Delete(k)`
followed by `Get(k)` returns not found (and the value `nil`). -/
theorem Delete_then_Get {V : Type} [Inhabited V] (c : Cache V) (k : String) :
    ((c.Delete k).Get k).2 = false ∧ (c.Delete k).Get k = (default, false) := by
  have h : (c.Delete k).Get k = (default, false) := by
    apply Get_of_lookup_none
    exact AList.lookup_erase k c.items
  exact ⟨by rw [h], h⟩

/-- C5: on the cache returned by `New(purgeInterval)`, `Get(k)` is not found
for every key, `ItemCount()` is 0 and the expiration tracker holds no record. -/
theorem New_empty (V : Type) [Inhabited V] (purgeInterval : Int) :
    (∀ k : String, ((New V purgeInterval).Get k).2 = false) ∧
      (New V purgeInterval).ItemCount = 0 ∧
      (New V purgeInterval).wd.expirationSet.entries = [] := by
  refine ⟨fun k => ?_, rfl, rfl⟩
  rw [Get_of_lookup_none]
  exact AList.lookup_empty k

/-- C6: for every cache state, after `Flush()` `ItemCount()` is 0 and `Get(k)`
is not found for every key, whatever was stored before. -/
theorem Flush_empties {V : Type} [Inhabited V] (c : Cache V) :
    c.Flush.ItemCount = 0 ∧ ∀ k : String, (c.Flush.Get k).2 = false := by
  refine ⟨rfl, fun k => ?_⟩
  rw [Get_of_lookup_none]
  exact AList.lookup_empty k

/-- C7: in every cache state, `ItemCount()` is the number of distinct keys for
which `Get` returns found. -/
theorem ItemCount_eq_card_found {V : Type} [Inhabited V] (c : Cache V) :
    c.ItemCount = ((Set.ncard {k : String | (c.Get k).2 = true} : Nat) : Int) := by
  have hset : {k : String | (c.Get k).2 = true} = ↑(c.items.keys.toFinset) := by
    ext k
    simp [Get_found_iff]
  rw [hset, Set.ncard_coe_Finset, List.toFinset_card_of_nodup c.items.keys_nodup]
  simp [Cache.ItemCount, AList.keys, List.keys]

/-- C8: `Delete(k)` lowers `ItemCount()` by exactly one when `Get(k)` was found
before it, and leaves `ItemCount()` unchanged when `Get(k)` was not found. -/
theorem ItemCount_Delete {V : Type} [Inhabited V] (c : Cache V) (k : String) :
    (c.Delete k).ItemCount = if (c.Get k).2 = true then c.ItemCount - 1 else c.ItemCount := by
  have hlen : ∀ m : GoMap V, m.entries.length = m.keys.length := by
    intro m
    simp [AList.keys, List.keys]
  have hdel : (c.Delete k).items = c.items.erase k := rfl
  unfold Cache.ItemCount
  rw [hdel, hlen, hlen, AList.keys_erase]
  by_cases hk : k ∈ c.items.keys
  · have hpos : 0 < c.items.keys.length := List.length_pos_of_mem hk
    rw [if_pos ((Get_found_iff c k).2 hk), List.length_erase_of_mem hk]
    omega
  · rw [if_neg (fun h => hk ((Get_found_iff c k).1 h)), List.erase_of_not_mem hk]

/-- C2, as stated, fails in two ways. (1) With `Set("a", 1, math.MaxInt64)` at
clock reading 1700000000000000000 the sum `t + d` does not fit in `int64`, the
record wraps to a negative instant, and a sweep 50ms later (a reading below
`t + d`) already evicts the key. (2) `Set` is two critical sections: on a
cache where "a" has a record that expired at 5, `Set("a", 1, 100ms)` writes
the store, a sweep at reading 10 runs before `track` and evicts "a" with its
old record, then `track` runs at reading 20 and stores the record 100000020;
the only sweep has a reading below `t + d` and `Get("a")` is not found. -/
theorem soft_deadline_fails :
    ((9223372036854775807 : Int) ≠ NoExpiration ∧
      (∀ n ∈ [(1700000000050000000 : Int)], n ≤ 1700000000000000000 + 9223372036854775807) ∧
      (watchdog.delete
          ((New Int 50000000).Set "a" 1 9223372036854775807 1700000000000000000)
          [1700000000050000000]).Get "a" = (default, false)) ∧
    ((100000000 : Int) ≠ NoExpiration ∧
      (∀ n ∈ [(10 : Int)], n ≤ 20 + 100000000) ∧
      ((New Int 50000000).runSections
          ((Step.Set "a" 0 5 0).sections ++
            [CriticalSection.SetStore "a" 1, CriticalSection.sweep 10,
              CriticalSection.SetTrack "a" 100000000 20])).Get "a" = (default, false) ∧
      ((New Int 50000000).runSections
          ((Step.Set "a" 0 5 0).sections ++
            [CriticalSection.SetStore "a" 1, CriticalSection.sweep 10,
              CriticalSection.SetTrack "a" 100000000 20])).wd.expirationSet.lookup "a"
        = some 100000020) := by
  decide

/-- C2 (amended): soft-deadline eviction. `Set(k, v, d)` with
`d ≠ NoExpiration` writes the store, then reads the clock (`t`) and tracks
the key, with `t + d` representable in `int64`; `between` are the readings of
the sweeps that run between the two critical sections, `after` those of the
sweeps that run after `Set` has returned, and there is no other `Set`,
`Delete` or `Flush`. If no sweep in `between` finds an expired record of `k`
(in particular if there is none), then whenever all readings of `after` are
at most `t + d`, `Get(k) = (v, true)`. And whenever `after` contains a
reading greater than `t + d`, `Get(k)` is not found. -/
theorem soft_deadline {V : Type} [Inhabited V] (c : Cache V) (k : String) (v : V)
    (d t : Int) (between : List Int) (hd : d ≠ NoExpiration) (hlo : -2 ^ 63 ≤ t + d)
    (hhi : t + d < 2 ^ 63) :
    ((∀ n ∈ between, k ∉ expiredKeys c.wd n) →
        ∀ after : List Int, (∀ n ∈ after, n ≤ t + d) →
          (watchdog.delete ((watchdog.delete (c.SetStore k v) between).SetTrack k d t)
            after).Get k = (v, true)) ∧
      (∀ after : List Int, (∃ n ∈ after, t + d < n) →
        ((watchdog.delete ((watchdog.delete (c.SetStore k v) between).SetTrack k d t)
          after).Get k).2 = false) := by
  have hrec : ((watchdog.delete (c.SetStore k v) between).SetTrack k d t).wd.expirationSet.lookup
      k = some (t + d) := by
    rw [SetTrack_expirationSet _ k d t hd, toInt64_of_range (t + d) hlo hhi]
    exact AList.lookup_insert _
  constructor
  · intro hbetween after hafter
    have hv0 : (c.SetStore k v).items.lookup k = some v := AList.lookup_insert _
    have hv : ((watchdog.delete (c.SetStore k v) between).SetTrack k d t).items.lookup k
        = some v := by
      rw [SetTrack_items]
      exact (delete_survives (c.SetStore k v) between k v hv0 hbetween).1
    exact Get_of_lookup_some _ k v (delete_early _ after k v (t + d) hv hrec hafter).1
  · intro after hafter
    rw [Get_of_lookup_none _ k (delete_late _ after k (t + d) hrec hafter)]

/-- The example of the specification: `Set("a", 1, 100ms)` at `t = 0` with no
sweep inside it, sweeps every 50ms: found after the sweep at 50ms, gone after
the sweeps up to 250ms. And with a sweep inside `Set`: "a" has a record until
1s, `Set("a", 1, 100ms)` writes the store, a sweep at 10ms evicts nothing,
`track` runs at 20ms; found after the sweeps at 50ms and 100ms, gone after
the sweep at 150ms. -/
theorem soft_deadline_witness :
    (100000000 : Int) ≠ NoExpiration ∧
      (watchdog.delete ((New Int 50000000).Set "a" 1 100000000 0) [50000000]).Get "a"
        = (1, true) ∧
      ((watchdog.delete ((New Int 50000000).Set "a" 1 100000000 0)
        [50000000, 100000000, 150000000, 200000000, 250000000]).Get "a").2 = false ∧
      (∀ n ∈ [(10000000 : Int)],
        "a" ∉ expiredKeys ((New Int 50000000).Set "a" 0 1000000000 0).wd n) ∧
      (watchdog.delete
        ((watchdog.delete (((New Int 50000000).Set "a" 0 1000000000 0).SetStore "a" 1)
          [10000000]).SetTrack "a" 100000000 20000000)
        [50000000, 100000000]).Get "a" = (1, true) ∧
      ((watchdog.delete
        ((watchdog.delete (((New Int 50000000).Set "a" 0 1000000000 0).SetStore "a" 1)
          [10000000]).SetTrack "a" 100000000 20000000)
        [50000000, 100000000, 150000000]).Get "a").2 = false :=
  ⟨by decide,
    (soft_deadline (New Int 50000000) "a" 1 100000000 0 [] (by decide) (by decide)
      (by decide)).1 (by decide) [50000000] (by decide),
    (soft_deadline (New Int 50000000) "a" 1 100000000 0 [] (by decide) (by decide)
      (by decide)).2 [50000000, 100000000, 150000000, 200000000, 250000000] (by decide),
    by decide,
    (soft_deadline ((New Int 50000000).Set "a" 0 1000000000 0) "a" 1 100000000 20000000
      [10000000] (by decide) (by decide) (by decide)).1 (by decide) [50000000, 100000000]
      (by decide),
    (soft_deadline ((New Int 50000000).Set "a" 0 1000000000 0) "a" 1 100000000 20000000
      [10000000] (by decide) (by decide) (by decide)).2 [50000000, 100000000, 150000000]
      (by decide)⟩

/-- C3: a key with no expiration record lives forever under sweeping. In every
state where `Get(k) = (v, true)` and `k` has no record in the tracker, after
any number of sweeps at any clock readings `Get(k)` is still `(v, true)`. -/
theorem untracked_lives_forever {V : Type} [Inhabited V] (c : Cache V) (k : String) (v : V)
    (ticks : List Int) (hget : c.Get k = (v, true))
    (hrec : c.wd.expirationSet.lookup k = none) :
    (watchdog.delete c ticks).Get k = (v, true) := by
  apply Get_of_lookup_some
  rw [(delete_untracked c ticks k hrec).1]
  exact (Get_eq_iff c k v).1 hget

/-- The example of the specification: `Set("x", "v", NoExpiration)` on a fresh
cache, then 10 sweeps. -/
theorem untracked_lives_forever_witness :
    ((New String 50000000).Set "x" "v" NoExpiration 0).Get "x" = ("v", true) ∧
      ((New String 50000000).Set "x" "v" NoExpiration 0).wd.expirationSet.lookup "x" = none ∧
      (watchdog.delete ((New String 50000000).Set "x" "v" NoExpiration 0)
        [50000000, 100000000, 150000000, 200000000, 250000000,
          300000000, 350000000, 400000000, 450000000, 500000000]).Get "x" = ("v", true) :=
  ⟨by decide, by decide,
    untracked_lives_forever ((New String 50000000).Set "x" "v" NoExpiration 0) "x" "v"
      [50000000, 100000000, 150000000, 200000000, 250000000,
        300000000, 350000000, 400000000, 450000000, 500000000] (by decide) (by decide)⟩

/-- C9: one sweep at clock reading `now`, applied to any state, removes from
the tracker exactly the records with `expiresAt < now` and from the store
exactly the keys of those records: for every key, a record with
`expiresAt < now` is removed together with the store entry of its key, a
record with `expiresAt >= now` is kept with its value, no record appears, and
a store entry whose key has no expired record is kept with its value. -/
theorem sweep_removes_exactly_expired {V : Type} (c : Cache V) (now : Int) (k : String) :
    (watchdog.sweep c now).wd.expirationSet.lookup k =
        (match c.wd.expirationSet.lookup k with
          | some expiresAt => if expiresAt < now then none else some expiresAt
          | none => none) ∧
      (watchdog.sweep c now).items.lookup k =
        (match c.wd.expirationSet.lookup k with
          | some expiresAt => if expiresAt < now then none else c.items.lookup k
          | none => c.items.lookup k) :=
  sweep_lookup c now k

/-- C10, as stated, fails: with `Set("a", 1, math.MaxInt64)` at clock reading
1700000000000000000 the sum `now + d` is not an `int64`; the record of "a" is
the wrapped value -7523372036854775809, not `now + d`. -/
theorem Set_record_overflow :
    (9223372036854775807 : Int) ≠ NoExpiration ∧
      ((New Int 50000000).Set "a" 1 9223372036854775807
          1700000000000000000).wd.expirationSet.lookup "a" = some (-7523372036854775809) ∧
      ((New Int 50000000).Set "a" 1 9223372036854775807
          1700000000000000000).wd.expirationSet.lookup "a"
        ≠ some (1700000000000000000 + 9223372036854775807) := by
  decide

/-- C10 (amended): for every state, key, value and lifespan `d ≠ NoExpiration`
such that `now + d` is representable in `int64`, `Set(k, v, d)` at clock
reading `now` leaves the tracker with exactly one record for `k`, whose
expiration instant is `now + d`, whatever record `k` had before. -/
theorem Set_record {V : Type} (c : Cache V) (k : String) (v : V) (d now : Int)
    (hd : d ≠ NoExpiration) (hlo : -2 ^ 63 ≤ now + d) (hhi : now + d < 2 ^ 63) :
    (c.Set k v d now).wd.expirationSet.entries.filter (fun r => decide (r.1 = k))
        = [⟨k, now + d⟩] ∧
      (c.Set k v d now).wd.expirationSet.lookup k = some (now + d) := by
  rw [Set_expirationSet c k v d now hd, toInt64_of_range (now + d) hlo hhi]
  exact ⟨insert_filter_key _ k (now + d), AList.lookup_insert _⟩

/-- A key tracked until 5 is set again at reading 1000 for 100ms: its one
record is then 100001000. -/
theorem Set_record_witness :
    (100000000 : Int) ≠ NoExpiration ∧
      (((New Int 50000000).Set "a" 1 5 0).Set "a" 2 100000000
          1000).wd.expirationSet.entries.filter (fun r => decide (r.1 = "a"))
        = [⟨"a", 100001000⟩] ∧
      (((New Int 50000000).Set "a" 1 5 0).Set "a" 2 100000000
          1000).wd.expirationSet.lookup "a" = some 100001000 :=
  ⟨by decide,
    Set_record ((New Int 50000000).Set "a" 1 5 0) "a" 2 100000000 1000
      (by decide) (by decide) (by decide)⟩

/-! ## Lemmas on `Set`, `Delete` and the reachable states -/

theorem Set_expirationSet_NoExpiration {V : Type} (c : Cache V) (k : String) (v : V)
    (now : Int) : (c.Set k v NoExpiration now).wd.expirationSet = c.wd.expirationSet := by
  simp [Cache.Set]

theorem length_entries_eq_length_keys {T : Type} (m : GoMap T) :
    m.entries.length = m.keys.length := by
  simp [AList.keys, List.keys]

theorem erase_of_lookup_none {T : Type} (m : GoMap T) (k : String)
    (h : m.lookup k = none) : m.erase k = m := by
  apply AList.ext
  exact List.kerase_of_not_mem_keys (AList.lookup_eq_none.1 h)

theorem TrackedStored_Set {V : Type} (c : Cache V) (k : String) (v : V) (d now : Int)
    (h : TrackedStored c) : TrackedStored (c.Set k v d now) := by
  intro a ha
  rw [Set_items]
  by_cases hd : d ≠ NoExpiration
  · rw [Set_expirationSet c k v d now hd] at ha
    rcases (AList.mem_insert _).1 (AList.mem_keys.2 ha) with rfl | hmem
    · exact AList.mem_keys.1 ((AList.mem_insert _).2 (Or.inl rfl))
    · exact AList.mem_keys.1 ((AList.mem_insert _).2 (Or.inr (AList.mem_keys.2 (h a hmem))))
  · have hd1 : d = NoExpiration := not_not.1 hd
    rw [hd1, Set_expirationSet_NoExpiration] at ha
    exact AList.mem_keys.1 ((AList.mem_insert _).2 (Or.inr (AList.mem_keys.2 (h a ha))))

theorem TrackedStored_Delete {V : Type} (c : Cache V) (k : String)
    (h : TrackedStored c) : TrackedStored (c.Delete k) := by
  intro a ha
  have ha1 : a ∈ c.wd.expirationSet.erase k := AList.mem_keys.2 ha
  obtain ⟨hne, hmem⟩ := AList.mem_erase.1 ha1
  have hgoal : a ∈ c.items.erase k := AList.mem_erase.2 ⟨hne, AList.mem_keys.2 (h a hmem)⟩
  exact AList.mem_keys.1 hgoal

theorem TrackedStored_sweep {V : Type} (c : Cache V) (now : Int)
    (h : TrackedStored c) : TrackedStored (watchdog.sweep c now) := by
  intro a ha
  have hs := sweep_lookup c now a
  have ha1 : a ∈ (watchdog.sweep c now).wd.expirationSet := AList.mem_keys.2 ha
  have hsome := AList.lookup_isSome.2 ha1
  apply AList.mem_keys.1
  apply AList.lookup_isSome.1
  cases hrec : c.wd.expirationSet.lookup a with
  | none =>
    rw [hrec] at hs
    rw [hs.1] at hsome
    cases hsome
  | some e =>
    rw [hrec] at hs
    by_cases hlt : e < now
    · simp only [hlt, if_true] at hs
      rw [hs.1] at hsome
      cases hsome
    · simp only [hlt, if_false] at hs
      rw [hs.2]
      have hk : a ∈ c.wd.expirationSet := AList.lookup_isSome.1 (by simp [hrec])
      exact AList.lookup_isSome.2 (AList.mem_keys.2 (h a (AList.mem_keys.1 hk)))

theorem TrackedStored_run {V : Type} (c : Cache V) (steps : List (Step V))
    (h : TrackedStored c) : TrackedStored (c.run steps) := by
  induction steps generalizing c with
  | nil => exact h
  | cons st rest ih =>
    apply ih (c.step st)
    cases st with
    | Set key value lifespan now => exact TrackedStored_Set c key value lifespan now h
    | Delete key => exact TrackedStored_Delete c key h
    | sweep now => exact TrackedStored_sweep c now h

theorem Get_congr {V : Type} [Inhabited V] (c1 c2 : Cache V) (k : String)
    (h : c1.items.lookup k = c2.items.lookup k) : c1.Get k = c2.Get k := by
  unfold Cache.Get
  rw [h]

theorem expiredKeys_eq_nil (w : watchdog) (now : Int)
    (h : ∀ r ∈ w.expirationSet.entries, ¬ r.2 < now) : expiredKeys w now = [] := by
  unfold expiredKeys
  rw [List.map_eq_nil_iff, List.filter_eq_nil_iff]
  intro r hr hlt
  exact h r hr (by simpa using hlt)

/-! ## The claims, continued -/

/-- C11 fails on the code: `Set(k, v, NoExpiration)` never touches the
tracker, so on the reachable state left by `Set("a", 1, 100ms)` at reading 0
the call `Set("a", 2, NoExpiration)` leaves the record of "a" (100000000) in
place. -/
theorem Set_NoExpiration_keeps_stale_record :
    (((New Int 50000000).Set "a" 1 100000000 0).Set "a" 2 NoExpiration
        10000000).wd.expirationSet.lookup "a" = some 100000000 := by
  decide

/-- C12: `Delete` clears both maps and is idempotent. After `Delete(k)` the
key is absent from the store and has no expiration record; on a state where
`k` is absent from both, `Delete(k)` leaves the whole state unchanged; and
`Delete(k)` twice equals `Delete(k)` once. -/
theorem Delete_idempotent {V : Type} (c : Cache V) (k : String) :
    (c.Delete k).items.lookup k = none ∧
      (c.Delete k).wd.expirationSet.lookup k = none ∧
      (c.items.lookup k = none → c.wd.expirationSet.lookup k = none → c.Delete k = c) ∧
      (c.Delete k).Delete k = c.Delete k := by
  have hunchanged : ∀ s : Cache V, s.items.lookup k = none →
      s.wd.expirationSet.lookup k = none → s.Delete k = s := by
    intro s h1 h2
    obtain ⟨items, ⟨expirationSet, purgeInterval⟩⟩ := s
    simp only [Cache.Delete, watchdog.untrack]
    rw [erase_of_lookup_none items k h1, erase_of_lookup_none expirationSet k h2]
  have h1 : (c.Delete k).items.lookup k = none := AList.lookup_erase k c.items
  have h2 : (c.Delete k).wd.expirationSet.lookup k = none :=
    AList.lookup_erase k c.wd.expirationSet
  exact ⟨h1, h2, hunchanged c, hunchanged (c.Delete k) h1 h2⟩

/-- On a fresh cache "a" is absent from both maps, and `Delete("a")` leaves
the state as it is; on a cache holding "a" with a record, both are cleared. -/
theorem Delete_idempotent_witness :
    (New Int 50000000).Delete "a" = New Int 50000000 ∧
      (((New Int 50000000).Set "a" 1 100000000 0).Delete "a").items.lookup "a" = none ∧
      (((New Int 50000000).Set "a" 1 100000000 0).Delete "a").wd.expirationSet.lookup "a"
        = none :=
  ⟨(Delete_idempotent (New Int 50000000) "a").2.2.1 (by decide) (by decide),
    (Delete_idempotent ((New Int 50000000).Set "a" 1 100000000 0) "a").1,
    (Delete_idempotent ((New Int 50000000).Set "a" 1 100000000 0) "a").2.1⟩

/-- C13: setting a key again replaces the previous value. After
`Set(k, v2, lifespan)`, `Get(k)` returns `(v2, true)`; `ItemCount()` is
unchanged when `Get(k)` was found before, and one more when it was not. -/
theorem Set_replaces {V : Type} [Inhabited V] (c : Cache V) (k : String) (v2 : V)
    (lifespan now : Int) :
    (c.Set k v2 lifespan now).Get k = (v2, true) ∧
      (c.Set k v2 lifespan now).ItemCount =
        if (c.Get k).2 = true then c.ItemCount else c.ItemCount + 1 := by
  constructor
  · apply Get_of_lookup_some
    rw [Set_items]
    exact AList.lookup_insert _
  · unfold Cache.ItemCount
    rw [Set_items, length_entries_eq_length_keys, length_entries_eq_length_keys,
      AList.keys_insert, List.length_cons]
    by_cases hk : k ∈ c.items.keys
    · have hpos : 0 < c.items.keys.length := List.length_pos_of_mem hk
      rw [if_pos ((Get_found_iff c k).2 hk), List.length_erase_of_mem hk]
      omega
    · rw [if_neg (fun h => hk ((Get_found_iff c k).1 h)), List.erase_of_not_mem hk]
      omega

/-- C14: `Flush` changes only the store: the expiration tracker after
`Flush()` holds exactly the records it held before. -/
theorem Flush_keeps_tracker {V : Type} (c : Cache V) :
    c.Flush.wd.expirationSet.entries = c.wd.expirationSet.entries ∧ c.Flush.wd = c.wd :=
  ⟨rfl, rfl⟩

/-- C15: a stale expiration record can evict a key meant to live forever.
`Set("a", 1, 100ms)` at reading 0, then `Set("a", 2, NoExpiration)`: `Get("a")`
is `(2, true)`, and after a sweep at 150ms, later than `t + d`, it is not
found. -/
theorem stale_record_evicts :
    ∃ (k : String) (v1 v2 d t t2 n : Int), d ≠ NoExpiration ∧ t + d < n ∧
      (((New Int 50000000).Set k v1 d t).Set k v2 NoExpiration t2).Get k = (v2, true) ∧
      ((watchdog.sweep (((New Int 50000000).Set k v1 d t).Set k v2 NoExpiration t2) n).Get
        k).2 = false :=
  ⟨"a", 1, 2, 100000000, 0, 10000000, 150000000, by decide, by decide, by decide, by decide⟩

/-- C16: a sweep that finds zero expired keys is a no-op. When no tracked
record has `expiresAt < now`, the store and the tracker after the sweep are
the store and the tracker before it (the whole state is unchanged). -/
theorem sweep_noop {V : Type} (c : Cache V) (now : Int)
    (h : ∀ r ∈ c.wd.expirationSet.entries, ¬ r.2 < now) :
    (watchdog.sweep c now).items = c.items ∧
      (watchdog.sweep c now).wd.expirationSet = c.wd.expirationSet ∧
      watchdog.sweep c now = c := by
  have hitems : (watchdog.sweep c now).items = c.items := by
    rw [sweep_items, expiredKeys_eq_nil c.wd now h]
    rfl
  have hexp : (watchdog.sweep c now).wd.expirationSet = c.wd.expirationSet := by
    rw [sweep_expirationSet, expiredKeys_eq_nil c.wd now h]
    rfl
  refine ⟨hitems, hexp, ?_⟩
  obtain ⟨items, ⟨expirationSet, purgeInterval⟩⟩ := c
  simp only [watchdog.sweep] at hitems hexp ⊢
  rw [hitems, hexp]

/-- A sweep at 50ms on a cache whose only record expires at 100ms changes
nothing. -/
theorem sweep_noop_witness :
    watchdog.sweep ((New Int 50000000).Set "a" 1 100000000 0) 50000000
      = (New Int 50000000).Set "a" 1 100000000 0 :=
  (sweep_noop ((New Int 50000000).Set "a" 1 100000000 0) 50000000 (by decide)).2.2

/-- C19, as stated, fails: `Set` and `Delete` are two critical sections each,
and a section of another goroutine may run between the two. From `New`,
`Set("a", 1, 100ms)` writes the store, `Delete("a")` runs as a whole, then
`track` runs: "a" has a record and is not in the store. So does a sweep in
place of the `Delete`, when "a" had an expired record. No `Flush` is run. -/
theorem tracked_keys_stored_fails :
    ¬ TrackedStored ((New Int 50000000).runSections
        (List.take 1 (Step.Set "a" 1 100000000 0).sections ++
          (Step.Delete "a").sections ++
          List.drop 1 (Step.Set "a" 1 100000000 0).sections)) ∧
      ¬ TrackedStored ((New Int 50000000).runSections
        ((Step.Set "a" 0 5 0).sections ++
          List.take 1 (Step.Set "a" 1 100000000 20).sections ++
          (Step.sweep 10).sections ++
          List.drop 1 (Step.Set "a" 1 100000000 20).sections)) := by
  decide

/-- C19 (amended): in every state reached from `New` by any sequence of `Set`,
`Delete` and sweep operations (no `Flush`) in which each operation runs to
completion before the next one starts, every key that has an expiration
record is present in the store; and after a `Flush` this holds only if the
tracker has no record, so one `Flush` on a state with at least one record
breaks it. -/
theorem tracked_keys_stored (V : Type) (purgeInterval : Int) (steps : List (Step V))
    (c : Cache V) :
    TrackedStored ((New V purgeInterval).runSections (steps.flatMap Step.sections)) ∧
      TrackedStored ((New V purgeInterval).run steps) ∧
      (TrackedStored c.Flush ↔ c.wd.expirationSet.entries = []) := by
  have hrun : TrackedStored ((New V purgeInterval).run steps) := by
    apply TrackedStored_run
    intro k hk
    cases hk
  refine ⟨?_, hrun, ?_⟩
  · rw [runSections_serial]
    exact hrun
  · constructor
    · intro h
      cases hent : c.wd.expirationSet.entries with
      | nil => rfl
      | cons r rs =>
        have hr : r.1 ∈ c.Flush.wd.expirationSet.keys := by
          have hmem : r ∈ c.wd.expirationSet.entries := by
            rw [hent]
            exact List.mem_cons_self r rs
          exact List.mem_keys_of_mem hmem
        cases h r.1 hr
    · intro hnil k hk
      have hkeys : c.Flush.wd.expirationSet.keys = [] := by
        show c.wd.expirationSet.entries.keys = []
        rw [hnil]
        rfl
      rw [hkeys] at hk
      cases hk

/-- C20: for distinct keys `k ≠ k'`, `Set(k, v, lifespan)` and `Delete(k)`
leave the result of `Get(k')` and the expiration record of `k'` (its presence
and its expiration instant) unchanged. -/
theorem other_key_unchanged {V : Type} [Inhabited V] (c : Cache V) (k k' : String) (v : V)
    (lifespan now : Int) (h : k ≠ k') :
    (c.Set k v lifespan now).Get k' = c.Get k' ∧
      (c.Set k v lifespan now).wd.expirationSet.lookup k' = c.wd.expirationSet.lookup k' ∧
      (c.Delete k).Get k' = c.Get k' ∧
      (c.Delete k).wd.expirationSet.lookup k' = c.wd.expirationSet.lookup k' := by
  have hne : k' ≠ k := fun e => h e.symm
  refine ⟨?_, ?_, ?_, ?_⟩
  · apply Get_congr
    rw [Set_items]
    exact AList.lookup_insert_ne hne
  · by_cases hd : lifespan ≠ NoExpiration
    · rw [Set_expirationSet c k v lifespan now hd]
      exact AList.lookup_insert_ne hne
    · have hd1 : lifespan = NoExpiration := not_not.1 hd
      rw [hd1, Set_expirationSet_NoExpiration]
  · apply Get_congr
    exact AList.lookup_erase_ne hne
  · exact AList.lookup_erase_ne hne

/-- With "b" stored and tracked until 200ms, setting or deleting "a" leaves
`Get("b")` and the record of "b" as they were. -/
theorem other_key_unchanged_witness :
    "a" ≠ "b" ∧
      (((New Int 50000000).Set "b" 7 200000000 0).Set "a" 1 100000000 5).Get "b" = (7, true) ∧
      (((New Int 50000000).Set "b" 7 200000000 0).Set "a" 1 100000000
        5).wd.expirationSet.lookup "b" = some 200000000 ∧
      (((New Int 50000000).Set "b" 7 200000000 0).Delete "a").Get "b" = (7, true) ∧
      (((New Int 50000000).Set "b" 7 200000000 0).Delete "a").wd.expirationSet.lookup "b"
        = some 200000000 :=
  ⟨by decide,
    other_key_unchanged ((New Int 50000000).Set "b" 7 200000000 0) "a" "b" 1 100000000 5
      (by decide)⟩

/-! ## Lemmas on the locks -/

theorem heldAfterAll_append (held : List Mutex) (xs ys : List Event) :
    heldAfterAll held (xs ++ ys) = heldAfterAll (heldAfterAll held xs) ys := by
  simp [heldAfterAll, List.foldl_append]

theorem checkEvents_append (P : List Mutex → Event → Bool) (held : List Mutex)
    (xs ys : List Event) :
    checkEvents P held (xs ++ ys) =
      (checkEvents P held xs && checkEvents P (heldAfterAll held xs) ys) := by
  induction xs generalizing held with
  | nil => simp [checkEvents, heldAfterAll]
  | cons e es ih =>
    have hstep : heldAfterAll held (e :: es) = heldAfterAll (e.heldAfter held) es := rfl
    show (P held e && checkEvents P (e.heldAfter held) (es ++ ys)) =
      ((P held e && checkEvents P (e.heldAfter held) es) &&
        checkEvents P (heldAfterAll held (e :: es)) ys)
    rw [ih, hstep, Bool.and_assoc]

/-- A loop whose every iteration passes the check and gives back the mutexes
it started with passes the check as a whole. -/
theorem checkEvents_flatMap {α : Type} (P : List Mutex → Event → Bool) (held : List Mutex)
    (body : α → List Event) (l : List α)
    (h : ∀ a ∈ l, checkEvents P held (body a) = true ∧ heldAfterAll held (body a) = held) :
    checkEvents P held (l.flatMap body) = true ∧ heldAfterAll held (l.flatMap body) = held := by
  induction l with
  | nil => exact ⟨rfl, rfl⟩
  | cons a as ih =>
    have ha := h a (List.mem_cons_self a as)
    have has := ih (fun b hb => h b (List.mem_cons_of_mem a hb))
    rw [List.flatMap_cons, checkEvents_append, heldAfterAll_append, ha.1, ha.2, has.1, has.2]
    exact ⟨rfl, rfl⟩

/-- The part of a sweep after `w.mu.Lock()` passes a check that its two kinds
of iteration, the deletions of the second loop and `w.mu.Unlock()` pass while
`watchdog.mu` is held. -/
theorem checkEvents_sweep_locked (P : List Mutex → Event → Bool) (w : watchdog) (now : Int)
    (hkeep : checkEvents P [Mutex.wdMu] [Event.access Mutex.wdMu] = true)
    (hevict : checkEvents P [Mutex.wdMu]
      [Event.access Mutex.wdMu, Event.Lock Mutex.cacheMu, Event.access Mutex.cacheMu,
        Event.Unlock Mutex.cacheMu] = true)
    (hunlock : checkEvents P [Mutex.wdMu] [Event.Unlock Mutex.wdMu] = true) :
    checkEvents P [Mutex.wdMu]
      (w.expirationSet.entries.flatMap (watchdog.scanEvents now) ++
        ((expiredKeys w now).flatMap (fun _ => [Event.access Mutex.wdMu]) ++
          [Event.Unlock Mutex.wdMu])) = true := by
  have h1 := checkEvents_flatMap P [Mutex.wdMu] (watchdog.scanEvents now)
    w.expirationSet.entries (by
      intro r _
      unfold watchdog.scanEvents
      by_cases hr : now > r.2
      · rw [if_pos hr]
        exact ⟨hevict, rfl⟩
      · rw [if_neg hr]
        exact ⟨hkeep, rfl⟩)
  have h2 := checkEvents_flatMap P [Mutex.wdMu] (fun _ : String => [Event.access Mutex.wdMu])
    (expiredKeys w now) (fun _ _ => ⟨hkeep, rfl⟩)
  rw [checkEvents_append, h1.1, h1.2, checkEvents_append, h2.1, h2.2, hunlock]
  rfl

theorem SetEvents_cases (lifespan : Int) :
    Cache.SetEvents lifespan =
        [Event.Lock Mutex.cacheMu, Event.access Mutex.cacheMu, Event.Unlock Mutex.cacheMu,
          Event.Lock Mutex.wdMu, Event.access Mutex.wdMu, Event.Unlock Mutex.wdMu] ∨
      Cache.SetEvents lifespan =
        [Event.Lock Mutex.cacheMu, Event.access Mutex.cacheMu, Event.Unlock Mutex.cacheMu] := by
  unfold Cache.SetEvents
  by_cases h : lifespan ≠ NoExpiration
  · left
    rw [if_pos h]
    rfl
  · right
    rw [if_neg h]
    rfl

theorem checkEvents_sweepEvents (P : List Mutex → Event → Bool) (w : watchdog) (now : Int)
    (hlen : P [] (Event.access Mutex.wdMu) = true)
    (hlock : P [] (Event.Lock Mutex.wdMu) = true)
    (hkeep : checkEvents P [Mutex.wdMu] [Event.access Mutex.wdMu] = true)
    (hevict : checkEvents P [Mutex.wdMu]
      [Event.access Mutex.wdMu, Event.Lock Mutex.cacheMu, Event.access Mutex.cacheMu,
        Event.Unlock Mutex.cacheMu] = true)
    (hunlock : checkEvents P [Mutex.wdMu] [Event.Unlock Mutex.wdMu] = true) :
    checkEvents P [] (watchdog.sweepEvents w now) = true := by
  have h := checkEvents_sweep_locked P w now hkeep hevict hunlock
  unfold watchdog.sweepEvents
  simp only [checkEvents, Event.heldAfter, hlen, hlock, h, Bool.and_self]

theorem filter_isLockCall_scanEvents (now : Int)
    (records : List (Sigma fun _ : String => Int)) :
    (records.flatMap (watchdog.scanEvents now)).filter Event.isLockCall =
      ((records.filter (fun r => decide (now > r.2))).map Sigma.fst).flatMap
        (fun _ => [Event.Lock Mutex.cacheMu, Event.Unlock Mutex.cacheMu]) := by
  induction records with
  | nil => rfl
  | cons r rs ih =>
    rw [List.flatMap_cons, List.filter_append, ih]
    by_cases hr : now > r.2
    · have hf : (r :: rs).filter (fun r => decide (now > r.2))
          = r :: rs.filter (fun r => decide (now > r.2)) :=
        List.filter_cons_of_pos (by simpa using hr)
      rw [hf]
      simp [watchdog.scanEvents, hr, Event.isLockCall]
    · have hf : (r :: rs).filter (fun r => decide (now > r.2))
          = rs.filter (fun r => decide (now > r.2)) :=
        List.filter_cons_of_neg (by simpa using hr)
      rw [hf]
      simp [watchdog.scanEvents, hr, Event.isLockCall]

theorem filter_isLockCall_purgeEvents (keys : List String) :
    (keys.flatMap (fun _ => [Event.access Mutex.wdMu])).filter Event.isLockCall = [] := by
  induction keys with
  | nil => rfl
  | cons k ks ih =>
    rw [List.flatMap_cons, List.filter_append, ih]
    rfl

/-- The calls on the mutexes made by one sweep, in order. -/
theorem filter_isLockCall_sweepEvents (w : watchdog) (now : Int) :
    (watchdog.sweepEvents w now).filter Event.isLockCall =
      Event.Lock Mutex.wdMu ::
        ((expiredKeys w now).flatMap
            (fun _ => [Event.Lock Mutex.cacheMu, Event.Unlock Mutex.cacheMu]) ++
          [Event.Unlock Mutex.wdMu]) := by
  unfold watchdog.sweepEvents
  rw [List.filter_cons_of_neg (by simp [Event.isLockCall]),
    List.filter_cons_of_pos (by simp [Event.isLockCall]), List.filter_append,
    List.filter_append, filter_isLockCall_scanEvents, filter_isLockCall_purgeEvents]
  rfl

/-- A sweep holds no mutex when it ends. -/
theorem heldAfterAll_sweepEvents (w : watchdog) (now : Int) :
    heldAfterAll [] (watchdog.sweepEvents w now) = [] := by
  have h1 := checkEvents_flatMap (fun _ _ => true) [Mutex.wdMu] (watchdog.scanEvents now)
    w.expirationSet.entries (by
      intro r _
      unfold watchdog.scanEvents
      by_cases hr : now > r.2
      · rw [if_pos hr]
        exact ⟨rfl, rfl⟩
      · rw [if_neg hr]
        exact ⟨rfl, rfl⟩)
  have h2 := checkEvents_flatMap (fun _ _ => true) [Mutex.wdMu]
    (fun _ : String => [Event.access Mutex.wdMu]) (expiredKeys w now) (fun _ _ => ⟨rfl, rfl⟩)
  unfold watchdog.sweepEvents
  show heldAfterAll [Mutex.wdMu] _ = []
  rw [heldAfterAll_append, h1.2, heldAfterAll_append, h2.2]
  rfl

/-- C17: lock ordering. In every operation (`Get`, `Set`, `Delete`,
`ItemCount`, `Flush`, `track`, `untrack`, a sweep), on every state, each lock
acquisition happens either with no lock held or takes the store lock while
exactly the tracker lock is held; no acquisition takes the tracker lock while
the store lock is held; in `Set` and `Delete` every acquisition happens with
no lock held; and every operation ends with no lock held. The calls on the
mutexes are exactly these: `Set` locks and unlocks the store lock and then,
for a lifespan other than `NoExpiration`, locks and unlocks the tracker lock;
`Delete` locks and unlocks the store lock, then the tracker lock; a sweep
locks the tracker lock, locks and unlocks the store lock once for each
evicted key, and unlocks the tracker lock; `Get` and `ItemCount` read-lock
and read-unlock the store lock, `Flush` locks and unlocks it, `track` and
`untrack` lock and unlock the tracker lock. -/
theorem lock_order (w : watchdog) (op : Op) (lifespan : Int) (now : Int) :
    checkEvents nestingAllowed [] (op.events w) = true ∧
      checkEvents notTrackerUnderStore [] (op.events w) = true ∧
      checkEvents notNested [] (Cache.SetEvents lifespan) = true ∧
      checkEvents notNested [] Cache.DeleteEvents = true ∧
      heldAfterAll [] (op.events w) = [] ∧
      (Cache.SetEvents lifespan).filter Event.isLockCall =
        [Event.Lock Mutex.cacheMu, Event.Unlock Mutex.cacheMu] ++
          (if lifespan ≠ NoExpiration then [Event.Lock Mutex.wdMu, Event.Unlock Mutex.wdMu]
            else []) ∧
      Cache.DeleteEvents.filter Event.isLockCall =
        [Event.Lock Mutex.cacheMu, Event.Unlock Mutex.cacheMu,
          Event.Lock Mutex.wdMu, Event.Unlock Mutex.wdMu] ∧
      (watchdog.sweepEvents w now).filter Event.isLockCall =
        Event.Lock Mutex.wdMu ::
          ((expiredKeys w now).flatMap
              (fun _ => [Event.Lock Mutex.cacheMu, Event.Unlock Mutex.cacheMu]) ++
            [Event.Unlock Mutex.wdMu]) ∧
      Cache.GetEvents.filter Event.isLockCall =
        [Event.RLock Mutex.cacheMu, Event.RUnlock Mutex.cacheMu] ∧
      Cache.ItemCountEvents.filter Event.isLockCall =
        [Event.RLock Mutex.cacheMu, Event.RUnlock Mutex.cacheMu] ∧
      Cache.FlushEvents.filter Event.isLockCall =
        [Event.Lock Mutex.cacheMu, Event.Unlock Mutex.cacheMu] ∧
      watchdog.trackEvents.filter Event.isLockCall =
        [Event.Lock Mutex.wdMu, Event.Unlock Mutex.wdMu] ∧
      watchdog.untrackEvents.filter Event.isLockCall =
        [Event.Lock Mutex.wdMu, Event.Unlock Mutex.wdMu] := by
  refine ⟨?_, ?_, ?_, by decide, ?_, ?_, by decide, filter_isLockCall_sweepEvents w now,
    by decide, by decide, by decide, by decide, by decide⟩
  · cases op with
    | Set d => rcases SetEvents_cases d with h | h <;> simp only [Op.events, h] <;> decide
    | sweep now =>
      exact checkEvents_sweepEvents nestingAllowed w now (by decide) (by decide) (by decide)
        (by decide) (by decide)
    | Get => rfl
    | Delete => rfl
    | ItemCount => rfl
    | Flush => rfl
    | track => rfl
    | untrack => rfl
  · cases op with
    | Set d => rcases SetEvents_cases d with h | h <;> simp only [Op.events, h] <;> decide
    | sweep now =>
      exact checkEvents_sweepEvents notTrackerUnderStore w now (by decide) (by decide)
        (by decide) (by decide) (by decide)
    | Get => rfl
    | Delete => rfl
    | ItemCount => rfl
    | Flush => rfl
    | track => rfl
    | untrack => rfl
  · rcases SetEvents_cases lifespan with h | h <;> rw [h] <;> decide
  · cases op with
    | Set d => rcases SetEvents_cases d with h | h <;> simp only [Op.events, h] <;> decide
    | sweep now => exact heldAfterAll_sweepEvents w now
    | Get => rfl
    | Delete => rfl
    | ItemCount => rfl
    | Flush => rfl
    | track => rfl
    | untrack => rfl
  · unfold Cache.SetEvents
    by_cases h : lifespan ≠ NoExpiration
    · rw [if_pos h, if_pos h]
      rfl
    · rw [if_neg h, if_neg h]
      rfl

/-- C18 fails on the code: in every sweep, on every state, the first access
to `w.expirationSet` (`len(w.expirationSet)` in the call of `make`) happens
before `w.mu.Lock()`, with no lock held. All later accesses of the sweep, and
those of `track` and `untrack`, do happen with the tracker lock held. -/
theorem sweep_reads_len_unlocked (w : watchdog) (now : Int) :
    (watchdog.sweepEvents w now).head? = some (Event.access Mutex.wdMu) ∧
      checkEvents trackerAccessLocked [] (watchdog.sweepEvents w now) = false ∧
      checkEvents trackerAccessLocked [] (watchdog.sweepEvents w now).tail = true ∧
      checkEvents trackerAccessLocked [] watchdog.trackEvents = true ∧
      checkEvents trackerAccessLocked [] watchdog.untrackEvents = true := by
  refine ⟨rfl, rfl, ?_, by decide, by decide⟩
  have h := checkEvents_sweep_locked trackerAccessLocked w now (by decide) (by decide)
    (by decide)
  unfold watchdog.sweepEvents
  simp only [List.tail_cons, checkEvents, Event.heldAfter, h]
  decide

end GoCache
